import Mathlib

/-!
Verification of the HeatMap mobile app's core reconciliation logic:
the relationship resolver (`FriendsScreen.tsx`), the comment thread
builder (`CommentSheet.tsx`), the reaction toggle handlers
(`CardStack` and `FeedCard`), feed pagination (`FeedScreen.tsx`), and
the card-stack index arithmetic (`CardStack`).

Modelling conventions:
- TypeScript strings are `String`, nullable fields are `Option`.
- `created_at` date strings are modelled by their numeric timestamp
  (`Nat`), since the code only ever compares `new Date(s).getTime()`.
- JS `Array.prototype.find` is `List.find?`; JS `Array.prototype.sort`
  with a `a - b` comparator is the stable ascending `List.insertionSort`.
- JS objects used as string-keyed records are association lists with
  unique keys; the spread-update `{ ...c, [k]: v }` is `setKey`.
-/

/-! ## Relationship resolver (src/screens/FriendsScreen.tsx, `searchResults`) -/

/-- The `status` column of a `friendships` row (src/types/index.ts). -/
inductive FriendStatus
  | pending
  | accepted
  | declined
deriving DecidableEq, Repr

/-- A `friendships` row (src/types/index.ts `Friendship`); `created_at`
is the numeric timestamp of the row's creation date. -/
structure Friendship where
  id : String
  requester_id : String
  addressee_id : String
  status : FriendStatus
  created_at : Nat
deriving DecidableEq, Repr

/-- The four derived relationship states shown in the search results
(`SearchResultWithStatus.buttonState`).  `add` is the spec's `none`,
`pending` is `pending_sent`, `accept` is `pending_received`. -/
inductive ButtonState
  | add
  | pending
  | friends
  | accept
deriving DecidableEq, Repr

/-- The edge-matching predicate of `searchResults`'s `list.find(...)`:
`(x.requester_id === userId && x.addressee_id === p.id) ||
 (x.requester_id === p.id && x.addressee_id === userId)`. -/
def matchesPair (userId pid : String) (x : Friendship) : Bool :=
  decide ((x.requester_id = userId ∧ x.addressee_id = pid) ∨
    (x.requester_id = pid ∧ x.addressee_id = userId))

/-- The classification performed per search profile inside
`searchResults` (FriendsScreen.tsx lines 66-79): scan the edge list for
the first edge touching `{userId, pid}`; absent gives `add`; an
`accepted` edge gives `friends`; otherwise the requester decides
between `pending` (sent) and `accept` (received). -/
def searchResultState (userId pid : String) (friendships : List Friendship) : ButtonState :=
  match friendships.find? (matchesPair userId pid) with
  | none => .add
  | some f =>
    if f.status = .accepted then .friends
    else if f.requester_id = userId then .pending
    else .accept

/-- `List.find?` only looks at the predicate pointwise. -/
theorem find_congr {α : Type} {p q : α → Bool} (h : ∀ x, p x = q x) :
    ∀ l : List α, l.find? p = l.find? q := by
  intro l
  induction l with
  | nil => rfl
  | cons a t ih =>
    simp only [List.find?]
    rw [h a]
    cases q a <;> simp [ih]

theorem matchesPair_comm (a b : String) (x : Friendship) :
    matchesPair a b x = matchesPair b a x := by
  unfold matchesPair
  exact decide_eq_decide.2 (by tauto)

theorem find_matchesPair_comm (a b : String) (edges : List Friendship) :
    edges.find? (matchesPair a b) = edges.find? (matchesPair b a) :=
  find_congr (matchesPair_comm a b) edges

/-- Claim C1 (counterexample): the resolver does not special-case
`declined` edges.  A single declined edge whose requester is the viewer
is classified `pending` (= `pending_sent`) even though its status is
not `pending`, contradicting "an edge whose status is declined is never
classified as pending_sent or pending_received". -/
theorem declined_edge_classified_pending_sent :
    let e : Friendship := ⟨"edge1", "alice", "bob", .declined, 10⟩
    searchResultState "alice" "bob" [e] = .pending ∧ e.status ≠ .pending := by
  decide

/-- Characterisation of the two pending classifications in terms of
the first matching edge. -/
theorem resolver_pending_iff (viewer other : String) (edges : List Friendship) :
    (searchResultState viewer other edges = .pending ↔
      ∃ f, edges.find? (matchesPair viewer other) = some f ∧
        f.status ≠ .accepted ∧ f.requester_id = viewer) ∧
    (searchResultState viewer other edges = .accept ↔
      ∃ f, edges.find? (matchesPair viewer other) = some f ∧
        f.status ≠ .accepted ∧ f.requester_id ≠ viewer) := by
  unfold searchResultState
  cases h : edges.find? (matchesPair viewer other) with
  | none =>
    constructor <;> constructor <;> intro hx <;> simp_all
  | some f =>
    by_cases hacc : f.status = .accepted
    · simp only [hacc, if_pos rfl]
      constructor <;> constructor <;> intro hx <;> simp_all
    · by_cases hreq : f.requester_id = viewer
      · simp only [if_neg hacc, if_pos hreq]
        constructor
        · constructor
          · intro _; exact ⟨f, rfl, hacc, hreq⟩
          · intro _; trivial
        · constructor
          · intro hx; cases hx
          · rintro ⟨g, hg, -, hgreq⟩
            cases hg
            exact absurd hreq hgreq
      · simp only [if_neg hacc, if_neg hreq]
        constructor
        · constructor
          · intro hx; cases hx
          · rintro ⟨g, hg, -, hgreq⟩
            cases hg
            exact absurd hgreq hreq
        · constructor
          · intro _; exact ⟨f, rfl, hacc, hreq⟩
          · intro _; trivial

/-- Claim C1 (amended): the resolver classifies the pair as
`pending_sent` exactly when the first matching edge has a status other
than `accepted` and its requester is the viewer, and as
`pending_received` exactly when the first matching edge has a status
other than `accepted` and its requester is not the viewer; `declined`
is not filtered out before matching, so a declined edge is classified
as `pending_sent`/`pending_received` like a pending one. -/
theorem resolver_pending_classification (viewer other : String) (edges : List Friendship) :
    (searchResultState viewer other edges = .pending ↔
      ∃ f, edges.find? (matchesPair viewer other) = some f ∧
        f.status ≠ .accepted ∧ f.requester_id = viewer) ∧
    (searchResultState viewer other edges = .accept ↔
      ∃ f, edges.find? (matchesPair viewer other) = some f ∧
        f.status ≠ .accepted ∧ f.requester_id ≠ viewer) :=
  resolver_pending_iff viewer other edges

/-- Claim C4 (counterexample): with two edges on the same unordered
pair, a `pending` edge listed first masks a later `accepted` edge: the
resolver does not return `friends` although an accepted edge touching
both ids exists, refuting the claimed "iff ... including when more than
one edge touches the same pair". -/
theorem duplicate_edges_mask_accepted :
    let e1 : Friendship := ⟨"edge1", "alice", "bob", .pending, 10⟩
    let e2 : Friendship := ⟨"edge2", "alice", "bob", .accepted, 20⟩
    searchResultState "alice" "bob" [e1, e2] ≠ .friends ∧
    ∃ f ∈ [e1, e2], matchesPair "alice" "bob" f = true ∧ f.status = .accepted := by
  decide

/-- Claim C4 (amended): the resolver always returns exactly one of the
four states, and it returns `friends` iff the FIRST edge touching the
unordered pair `{viewer, other}` has status `accepted`; when at most
one edge touches the pair this is equivalent to the existence of an
accepted edge touching both ids. -/
theorem resolver_friends_classification (viewer other : String) (edges : List Friendship) :
    (searchResultState viewer other edges = .add ∨
      searchResultState viewer other edges = .pending ∨
      searchResultState viewer other edges = .friends ∨
      searchResultState viewer other edges = .accept) ∧
    (searchResultState viewer other edges = .friends ↔
      ∃ f, edges.find? (matchesPair viewer other) = some f ∧ f.status = .accepted) ∧
    ((∀ f ∈ edges, ∀ g ∈ edges, matchesPair viewer other f = true →
        matchesPair viewer other g = true → f = g) →
      (searchResultState viewer other edges = .friends ↔
        ∃ f ∈ edges, matchesPair viewer other f = true ∧ f.status = .accepted)) := by
  have hfr : searchResultState viewer other edges = .friends ↔
      ∃ f, edges.find? (matchesPair viewer other) = some f ∧ f.status = .accepted := by
    unfold searchResultState
    cases h : edges.find? (matchesPair viewer other) with
    | none => constructor <;> intro hx <;> simp_all
    | some f =>
      by_cases hacc : f.status = .accepted
      · simp only [hacc, if_pos rfl]
        exact ⟨fun _ => ⟨f, rfl, hacc⟩, fun _ => rfl⟩
      · simp only [if_neg hacc]
        constructor
        · intro hx
          by_cases hreq : f.requester_id = viewer <;> simp [hreq] at hx
        · rintro ⟨g, hg, hgacc⟩
          cases hg
          exact absurd hgacc hacc
  refine ⟨?_, hfr, ?_⟩
  · unfold searchResultState
    cases edges.find? (matchesPair viewer other) with
    | none => exact Or.inl rfl
    | some f =>
      by_cases hacc : f.status = .accepted
      · simp [hacc]
      · by_cases hreq : f.requester_id = viewer <;> simp [hacc, hreq]
  · intro huniq
    rw [hfr]
    constructor
    · rintro ⟨f, hf, hacc⟩
      exact ⟨f, List.mem_of_find?_eq_some hf, List.find?_some hf, hacc⟩
    · rintro ⟨f, hmem, hmatch, hacc⟩
      have hsome : (edges.find? (matchesPair viewer other)).isSome = true :=
        List.find?_isSome.2 ⟨f, hmem, hmatch⟩
      cases h : edges.find? (matchesPair viewer other) with
      | none => rw [h] at hsome; cases hsome
      | some g =>
        have hg := huniq g (List.mem_of_find?_eq_some h) f hmem (List.find?_some h) hmatch
        exact ⟨g, rfl, hg ▸ hacc⟩

/-- Claim C4 (witness): instantiating the at-most-one-edge clause at a
concrete single-edge list. -/
theorem resolver_friends_classification_witness :
    searchResultState "alice" "bob" [⟨"edge1", "alice", "bob", .accepted, 10⟩] = .friends ↔
      ∃ f ∈ [(⟨"edge1", "alice", "bob", .accepted, 10⟩ : Friendship)],
        matchesPair "alice" "bob" f = true ∧ f.status = .accepted :=
  (resolver_friends_classification "alice" "bob"
    [⟨"edge1", "alice", "bob", .accepted, 10⟩]).2.2 (by decide)

/-- Claim C5: for two distinct users `a ≠ b`, the resolver is
symmetric on pending edges over the same edge list: `pending_sent`
from `a`'s perspective is `pending_received` from `b`'s, and
conversely. -/
theorem resolver_pending_symmetry (a b : String) (edges : List Friendship) (hab : a ≠ b) :
    (searchResultState a b edges = .pending → searchResultState b a edges = .accept) ∧
    (searchResultState a b edges = .accept → searchResultState b a edges = .pending) := by
  have hfind := find_matchesPair_comm a b edges
  have h1 := resolver_pending_iff a b edges
  have h2 := resolver_pending_iff b a edges
  constructor
  · intro hp
    rcases h1.1.1 hp with ⟨f, hf, hacc, hreq⟩
    apply h2.2.2
    refine ⟨f, by rw [← hfind]; exact hf, hacc, ?_⟩
    rw [hreq]; exact hab
  · intro hp
    rcases h1.2.1 hp with ⟨f, hf, hacc, hreq⟩
    have hmatch : matchesPair a b f = true := List.find?_some hf
    have hprop := of_decide_eq_true hmatch
    have hreqb : f.requester_id = b := by
      rcases hprop with ⟨h, -⟩ | ⟨h, -⟩
      · exact absurd h hreq
      · exact h
    apply h2.1.2
    exact ⟨f, by rw [← hfind]; exact hf, hacc, hreqb⟩

/-- Claim C5 (witness): the symmetry instantiated at a concrete pending
edge between distinct users. -/
theorem resolver_pending_symmetry_witness :
    searchResultState "bob" "alice" [⟨"edge1", "alice", "bob", .pending, 10⟩] = .accept :=
  (resolver_pending_symmetry "alice" "bob" [⟨"edge1", "alice", "bob", .pending, 10⟩]
    (by decide)).1 (by decide)

/-! ## Comment thread builder (src/components/CommentSheet.tsx, `buildThreadedComments`) -/

/-- The joined `profiles` record on a comment row
(`CommentWithProfile.profiles` in CommentSheet.tsx). -/
structure ProfileInfo where
  display_name : String
  username : String
  avatar_url : Option String
deriving DecidableEq, Repr

/-- A comment row joined with its author profile
(`CommentWithProfile` in CommentSheet.tsx); `created_at` is the
numeric timestamp the code obtains via `new Date(...).getTime()`. -/
structure CommentWithProfile where
  id : String
  post_id : String
  user_id : String
  content : String
  created_at : Nat
  parent_id : Option String
  profiles : Option ProfileInfo
deriving DecidableEq, Repr

/-- JS truthiness of a nullable string (`if (c.parent_id)`): `null` and
the empty string are falsy. -/
def strTruthy : Option String → Bool
  | none => false
  | some s => decide (s ≠ "")

/-- A comment is laid out as top-level when `!c.parent_id`. -/
def isTopLevel (c : CommentWithProfile) : Bool := !strTruthy c.parent_id

/-- The ascending `created_at` comparator used by both `.sort` calls of
`buildThreadedComments`. -/
def timeLe (a b : CommentWithProfile) : Prop := a.created_at ≤ b.created_at

instance : DecidableRel timeLe := fun a b => Nat.decLe a.created_at b.created_at

instance : IsTotal CommentWithProfile timeLe :=
  ⟨fun a b => Nat.le_total a.created_at b.created_at⟩

instance : IsTrans CommentWithProfile timeLe :=
  ⟨fun _ _ _ hab hbc => Nat.le_trans hab hbc⟩

/-- One output row of `buildThreadedComments`: either a top-level
comment or a one-indent reply carrying the resolved parent username. -/
inductive ThreadEntry
  | top (comment : CommentWithProfile)
  | reply (comment : CommentWithProfile) (parentUsername : String)
deriving DecidableEq, Repr

/-- The comment carried by an output row. -/
def commentOf : ThreadEntry → CommentWithProfile
  | .top c => c
  | .reply c _ => c

/-- Projects a top-level output row to its comment. -/
def topOf : ThreadEntry → Option CommentWithProfile
  | .top c => some c
  | .reply _ _ => none

/-- `parent?.profiles?.username ?? 'unknown'` where
`parent = comments.find((p) => p.id === c.parent_id)`. -/
def parentUsernameOf (comments : List CommentWithProfile) (pid : String) : String :=
  match comments.find? (fun p => decide (p.id = pid)) with
  | some parent =>
    match parent.profiles with
    | some pr => pr.username
    | none => "unknown"
  | none => "unknown"

/-- The `repliesByParent[pid]` group: comments pushed in input order
when `c.parent_id` is truthy and equals `pid` (absent keys read as
`[]` via `?? []`). -/
def repliesTo (comments : List CommentWithProfile) (pid : String) : List CommentWithProfile :=
  comments.filter (fun c => strTruthy c.parent_id && decide (c.parent_id = some pid))

/-- The output block emitted for one top-level comment `t`: the `top`
row followed by `t`'s replies sorted ascending by `created_at`, each
with its parent username resolved over the full comment list. -/
def threadBlock (comments : List CommentWithProfile) (t : CommentWithProfile) :
    List ThreadEntry :=
  ThreadEntry.top t ::
    (List.insertionSort timeLe (repliesTo comments t.id)).map
      (fun c => ThreadEntry.reply c (parentUsernameOf comments (c.parent_id.getD "")))

/-- `buildThreadedComments` (CommentSheet.tsx lines 53-87): sort the
top-level comments ascending and emit each one's block; only groups
keyed by a top-level comment's id are ever emitted. -/
def buildThreadedComments (comments : List CommentWithProfile) : List ThreadEntry :=
  (List.insertionSort timeLe (comments.filter isTopLevel)).flatMap (threadBlock comments)

/-- Observation function on the output: collect the leading run of
reply rows, returning their comments and the remaining rows. -/
def splitRun : List ThreadEntry → List CommentWithProfile × List ThreadEntry
  | [] => ([], [])
  | .reply c _ :: rest =>
    let p := splitRun rest
    (c :: p.1, p.2)
  | .top t :: rest => ([], .top t :: rest)

theorem splitRun_length (l : List ThreadEntry) : (splitRun l).2.length ≤ l.length := by
  induction l with
  | nil => simp [splitRun]
  | cons e rest ih =>
    cases e with
    | top t => simp [splitRun]
    | reply c u => simpa [splitRun] using Nat.le_succ_of_le ih

/-- Observation function on the output: parse it into blocks, each a
top-level comment paired with the run of reply rows that immediately
follows it. -/
def chunks : List ThreadEntry → List (CommentWithProfile × List CommentWithProfile)
  | [] => []
  | .reply _ _ :: rest => chunks rest
  | .top t :: rest => (t, (splitRun rest).1) :: chunks (splitRun rest).2
termination_by l => l.length
decreasing_by
  all_goals simp only [List.length_cons]
  · exact Nat.lt_succ_self _
  · exact Nat.lt_succ_of_le (splitRun_length rest)

theorem splitRun_replyEntries (g : CommentWithProfile → String)
    (rs : List CommentWithProfile) (l : List ThreadEntry)
    (hl : l = [] ∨ ∃ t rest, l = .top t :: rest) :
    splitRun ((rs.map fun c => ThreadEntry.reply c (g c)) ++ l) = (rs, l) := by
  induction rs with
  | nil =>
    rcases hl with h | ⟨t, rest, h⟩ <;> subst h <;> simp [splitRun]
  | cons c rs ih => simp [splitRun, ih]

theorem flatMap_threadBlock_shape (comments ts : List CommentWithProfile) :
    ts.flatMap (threadBlock comments) = [] ∨
      ∃ t rest, ts.flatMap (threadBlock comments) = .top t :: rest := by
  cases ts with
  | nil => exact Or.inl rfl
  | cons t ts =>
    right
    refine ⟨t, ?_, ?_⟩
    · exact (List.insertionSort timeLe (repliesTo comments t.id)).map
        (fun c => ThreadEntry.reply c (parentUsernameOf comments (c.parent_id.getD ""))) ++
        ts.flatMap (threadBlock comments)
    · simp [threadBlock]

theorem chunks_flatMap (comments ts : List CommentWithProfile) :
    chunks (ts.flatMap (threadBlock comments)) =
      ts.map (fun t => (t, List.insertionSort timeLe (repliesTo comments t.id))) := by
  induction ts with
  | nil => simp [chunks]
  | cons t ts ih =>
    have hsplit := splitRun_replyEntries
      (fun c => parentUsernameOf comments (c.parent_id.getD ""))
      (List.insertionSort timeLe (repliesTo comments t.id))
      (ts.flatMap (threadBlock comments))
      (flatMap_threadBlock_shape comments ts)
    simp only [List.flatMap_cons, threadBlock, List.cons_append, chunks, hsplit, List.map_cons]
    exact congrArg _ ih

theorem filterMap_topOf_replies (comments : List CommentWithProfile)
    (rs : List CommentWithProfile) :
    (rs.map fun c =>
        ThreadEntry.reply c (parentUsernameOf comments (c.parent_id.getD ""))).filterMap
      topOf = [] := by
  induction rs with
  | nil => rfl
  | cons c rs ih => simp [List.filterMap_cons, topOf, ih]

theorem filterMap_topOf_flatMap (comments ts : List CommentWithProfile) :
    (ts.flatMap (threadBlock comments)).filterMap topOf = ts := by
  induction ts with
  | nil => rfl
  | cons t ts ih =>
    simp only [List.flatMap_cons, List.filterMap_append, threadBlock, List.filterMap_cons,
      topOf, filterMap_topOf_replies]
    simpa using ih

/-- Claim C2 (counterexample): a reply-to-a-reply does NOT appear in
the layout output.  With comment `a` top-level, `b` a reply to `a` and
`c` a reply to `b`, the emitted layout contains no row for `c`,
refuting "still appears in the layout output ... rendered as a flat
one-indent reply". -/
theorem reply_to_reply_dropped :
    let a : CommentWithProfile := ⟨"a1", "post1", "ua", "first", 1, none,
      some ⟨"Alice", "alice", none⟩⟩
    let b : CommentWithProfile := ⟨"b1", "post1", "ub", "reply", 2, some "a1",
      some ⟨"Bob", "bob", none⟩⟩
    let c : CommentWithProfile := ⟨"c1", "post1", "uc", "nested", 3, some "b1",
      some ⟨"Carol", "carol", none⟩⟩
    c.parent_id = some b.id ∧ b ∈ [a, b, c] ∧ strTruthy b.parent_id = true ∧
      (∀ e ∈ buildThreadedComments [a, b, c], commentOf e ≠ c) := by
  decide

/-- Claim C2 (amended): a reply whose `parent_id` references a comment
that is itself a reply (every comment carrying that id is non-top-level)
is grouped under its immediate parent's id in `repliesByParent`, but the
emission loop only visits groups keyed by top-level comment ids, so the
reply-to-a-reply does not appear in the layout output at all. -/
theorem reply_to_reply_not_emitted (comments : List CommentWithProfile)
    (c : CommentWithProfile) (pid : String)
    (hpid : c.parent_id = some pid) (hne : pid ≠ "")
    (hpar : ∀ p ∈ comments, p.id = pid → strTruthy p.parent_id = true) :
    ∀ e ∈ buildThreadedComments comments, commentOf e ≠ c := by
  intro e he
  unfold buildThreadedComments at he
  rcases List.mem_flatMap.1 he with ⟨t, ht, hblock⟩
  have htf : t ∈ comments.filter isTopLevel := (List.mem_insertionSort timeLe).1 ht
  rcases List.mem_filter.1 htf with ⟨htm, htop⟩
  rcases List.mem_cons.1 hblock with rfl | hrep
  · intro hcontra
    have : strTruthy t.parent_id = true := by
      simp only [commentOf] at hcontra
      rw [hcontra, hpid]
      simp [strTruthy, hne]
    rw [isTopLevel, this] at htop
    cases htop
  · rcases List.mem_map.1 hrep with ⟨r, hrs, rfl⟩
    have hrmem : r ∈ repliesTo comments t.id := (List.mem_insertionSort timeLe).1 hrs
    rcases List.mem_filter.1 hrmem with ⟨-, hrp⟩
    rw [Bool.and_eq_true] at hrp
    rcases hrp with ⟨-, hrid⟩
    have hrid' : r.parent_id = some t.id := of_decide_eq_true hrid
    intro hcontra
    simp only [commentOf] at hcontra
    subst hcontra
    rw [hpid] at hrid'
    have htid : t.id = pid := by injection hrid' with h; exact h.symm
    have := hpar t htm htid
    rw [isTopLevel, this] at htop
    cases htop

/-- Claim C2 (witness): the amended statement applied at the concrete
reply-to-a-reply instance and at the top entry of the resulting
layout. -/
theorem reply_to_reply_not_emitted_witness :
    commentOf (ThreadEntry.top
        ⟨"a1", "post1", "ua", "first", 1, none, some ⟨"Alice", "alice", none⟩⟩) ≠
      ⟨"c1", "post1", "uc", "nested", 3, some "b1", some ⟨"Carol", "carol", none⟩⟩ :=
  reply_to_reply_not_emitted
    [⟨"a1", "post1", "ua", "first", 1, none, some ⟨"Alice", "alice", none⟩⟩,
     ⟨"b1", "post1", "ub", "reply", 2, some "a1", some ⟨"Bob", "bob", none⟩⟩,
     ⟨"c1", "post1", "uc", "nested", 3, some "b1", some ⟨"Carol", "carol", none⟩⟩]
    ⟨"c1", "post1", "uc", "nested", 3, some "b1", some ⟨"Carol", "carol", none⟩⟩
    "b1" rfl (by decide) (by decide)
    (ThreadEntry.top ⟨"a1", "post1", "ua", "first", 1, none, some ⟨"Alice", "alice", none⟩⟩)
    (by decide)

/-- Claim C6 (counterexample): "places each reply immediately after its
parent comment" fails on a list with a reply-to-a-reply: the inner
reply is absent from the output entirely, so in particular it is not
placed after its parent. -/
theorem thread_layout_misses_nested_reply :
    let a : CommentWithProfile := ⟨"d1", "post2", "ua", "hello", 1, none,
      some ⟨"Dana", "dana", none⟩⟩
    let b : CommentWithProfile := ⟨"e1", "post2", "ub", "hi", 2, some "d1",
      some ⟨"Evan", "evan", none⟩⟩
    let c : CommentWithProfile := ⟨"f1", "post2", "uc", "hey", 3, some "e1",
      some ⟨"Fred", "fred", none⟩⟩
    b ∈ [a, b, c] ∧ c.parent_id = some b.id ∧
      (buildThreadedComments [a, b, c]).map commentOf = [a, b] := by
  decide

/-- Claim C6 (amended): the layout output parses into blocks, one per
top-level comment in ascending `created_at` order (and listing all of
them), each block being the top-level comment followed immediately by
exactly its replies in ascending `created_at` order; consequently every
reply whose parent is a top-level comment of the list is placed in the
block immediately following its parent.  (Replies whose parent is
itself a reply are dropped, see the counterexample.) -/
theorem thread_layout_ordering (comments : List CommentWithProfile) :
    List.Sorted timeLe ((buildThreadedComments comments).filterMap topOf) ∧
    ((buildThreadedComments comments).filterMap topOf).Perm (comments.filter isTopLevel) ∧
    chunks (buildThreadedComments comments) =
      (List.insertionSort timeLe (comments.filter isTopLevel)).map
        (fun t => (t, List.insertionSort timeLe (repliesTo comments t.id))) ∧
    (∀ p ∈ chunks (buildThreadedComments comments),
      List.Sorted timeLe p.2 ∧ p.2.Perm (repliesTo comments p.1.id)) ∧
    (∀ c ∈ comments, ∀ pid, c.parent_id = some pid → pid ≠ "" →
      (∃ t ∈ comments, t.id = pid ∧ isTopLevel t = true) →
      ∃ p ∈ chunks (buildThreadedComments comments), p.1.id = pid ∧ c ∈ p.2) := by
  have htops : (buildThreadedComments comments).filterMap topOf =
      List.insertionSort timeLe (comments.filter isTopLevel) :=
    filterMap_topOf_flatMap comments _
  have hchunks : chunks (buildThreadedComments comments) =
      (List.insertionSort timeLe (comments.filter isTopLevel)).map
        (fun t => (t, List.insertionSort timeLe (repliesTo comments t.id))) :=
    chunks_flatMap comments _
  refine ⟨?_, ?_, hchunks, ?_, ?_⟩
  · rw [htops]
    exact List.sorted_insertionSort timeLe _
  · rw [htops]
    exact List.perm_insertionSort timeLe _
  · intro p hp
    rw [hchunks] at hp
    rcases List.mem_map.1 hp with ⟨t, -, rfl⟩
    exact ⟨List.sorted_insertionSort timeLe _, List.perm_insertionSort timeLe _⟩
  · intro c hc pid hpid hne ⟨t, htm, htid, htop⟩
    refine ⟨(t, List.insertionSort timeLe (repliesTo comments t.id)), ?_, htid, ?_⟩
    · rw [hchunks]
      apply List.mem_map.2
      refine ⟨t, ?_, rfl⟩
      exact (List.mem_insertionSort timeLe).2 (List.mem_filter.2 ⟨htm, htop⟩)
    · apply (List.mem_insertionSort timeLe).2
      apply List.mem_filter.2
      refine ⟨hc, ?_⟩
      rw [Bool.and_eq_true]
      constructor
      · rw [hpid]; simp [strTruthy, hne]
      · rw [hpid, htid]; simp

/-- Claim C6 (witness): the reply-placement clause applied at a
concrete two-level thread. -/
theorem thread_layout_ordering_witness :
    ∃ p ∈ chunks (buildThreadedComments
      [⟨"t1", "post3", "u1", "one", 2, none, some ⟨"Gail", "gail", none⟩⟩,
       ⟨"t2", "post3", "u2", "two", 1, none, some ⟨"Hugh", "hugh", none⟩⟩,
       ⟨"r1", "post3", "u3", "three", 5, some "t1", some ⟨"Iris", "iris", none⟩⟩,
       ⟨"r2", "post3", "u4", "four", 4, some "t1", some ⟨"Jack", "jack", none⟩⟩]),
      p.1.id = "t1" ∧
        (⟨"r2", "post3", "u4", "four", 4, some "t1",
          some ⟨"Jack", "jack", none⟩⟩ : CommentWithProfile) ∈ p.2 :=
  (thread_layout_ordering _).2.2.2.2 _ (by decide) "t1" rfl (by decide)
    ⟨⟨"t1", "post3", "u1", "one", 2, none, some ⟨"Gail", "gail", none⟩⟩, by decide, rfl,
      by decide⟩

/-! ## Reaction toggle (CardStack `handleReactionToggle` and FeedCard
`handleReactionToggle`) -/

/-- A `Record<string, number>` of per-emoji counts, modelled as an
association list with the record's key order (JS objects keep string
keys in insertion order). -/
abbrev Counts := List (String × Nat)

/-- `c[k]`: the value at key `k`, if present (first occurrence). -/
def lookupKey : Counts → String → Option Nat
  | [], _ => none
  | (k', v) :: rest, k => if k' = k then some v else lookupKey rest k

/-- The spread-update `{ ...c, [k]: v }`: replaces the value at an
existing key in place, or appends a fresh key at the end. -/
def setKey : Counts → String → Nat → Counts
  | [], k, v => [(k, v)]
  | (k', v') :: rest, k, v =>
    if k' = k then (k', v) :: rest else (k', v') :: setKey rest k v

/-- The optimistic local-state update shared verbatim by the CardStack
and FeedCard toggle handlers.  Clearing uses
`Math.max(0, (c[emoji] ?? 1) - 1)` (`Nat` subtraction already floors at
zero); switching first decrements the previous reaction the same way,
then increments the new emoji with `(c[emoji] ?? 0) + 1`. -/
def toggleLocal (counts : Counts) (userReaction : Option String) (emoji : String) :
    Counts × Option String :=
  if userReaction = some emoji then
    (setKey counts emoji ((lookupKey counts emoji).getD 1 - 1), none)
  else
    let c1 := match userReaction with
      | some prev => setKey counts prev ((lookupKey counts prev).getD 1 - 1)
      | none => counts
    (setKey c1 emoji ((lookupKey c1 emoji).getD 0 + 1), some emoji)

/-- Outcomes of the remote calls a toggle can issue: the checked delete
of the clear path, the unchecked delete of the switch path, and the
checked insert of the switch path. -/
structure RemoteOutcome where
  clearDeleteOk : Bool
  switchDeleteOk : Bool
  insertOk : Bool
deriving DecidableEq, Repr

/-- The CardStack implementation (`handleReactionToggle`, CardStack
component): optimistic update, then, on the checked remote call's
error, restore the snapshot `(prevCounts, prevReaction)`.  The switch
path's intermediate delete is awaited but its error is never checked
(`switchDeleteOk` is not consulted), so the resulting local state is
the value after the toggle completes. -/
def cardStackToggle (counts : Counts) (userReaction : Option String) (emoji : String)
    (remote : RemoteOutcome) : Counts × Option String :=
  if userReaction = some emoji then
    if remote.clearDeleteOk then toggleLocal counts userReaction emoji
    else (counts, userReaction)
  else
    if remote.insertOk then toggleLocal counts userReaction emoji
    else (counts, userReaction)

/-- The FeedCard implementation (`handleReactionToggle`, FeedCard
component): the optimistic update is reported via `onReactionChange`
and every remote call is fire-and-forget (`.then(() => {})`), so the
local state never depends on the remote outcome and is never rolled
back. -/
def feedCardToggle (counts : Counts) (userReaction : Option String) (emoji : String)
    (remote : RemoteOutcome) : Counts × Option String :=
  toggleLocal counts userReaction emoji

theorem lookupKey_setKey (c : Counts) (k : String) (v : Nat) :
    lookupKey (setKey c k v) k = some v := by
  induction c with
  | nil => simp [setKey, lookupKey]
  | cons p rest ih =>
    by_cases h : p.1 = k
    · simp [setKey, lookupKey, h]
    · simp [setKey, lookupKey, h, ih]

theorem setKey_setKey (c : Counts) (k : String) (v w : Nat) :
    setKey (setKey c k v) k w = setKey c k w := by
  induction c with
  | nil => simp [setKey]
  | cons p rest ih =>
    by_cases h : p.1 = k
    · simp [setKey, h]
    · simp [setKey, h, ih]

theorem setKey_self (c : Counts) (k : String) (v : Nat) (h : lookupKey c k = some v) :
    setKey c k v = c := by
  induction c with
  | nil => simp [lookupKey] at h
  | cons p rest ih =>
    obtain ⟨pk, pv⟩ := p
    by_cases hk : pk = k
    · simp only [lookupKey, if_pos hk, Option.some.injEq] at h
      simp [setKey, hk, h]
    · simp only [lookupKey, if_neg hk] at h
      simp [setKey, hk, ih h]

/-- Claim C3 (counterexample): the local state is NOT always restored
when a remote call fails.  In the FeedCard a failing insert leaves the
optimistic state in place (there is no rollback at all), and in the
CardStack a failing intermediate delete in the switch path is ignored
when the subsequent insert succeeds. -/
theorem failed_toggle_not_rolled_back :
    feedCardToggle [] none "🔥" ⟨true, true, false⟩ ≠ ([], none) ∧
    cardStackToggle [("🔥", 1)] (some "🔥") "❤️" ⟨true, false, true⟩ ≠
      ([("🔥", 1)], some "🔥") := by
  decide

/-- Claim C3 (amended): only the CardStack implementation rolls back,
and only on the checked remote call: when the clear path's delete fails
or the switch path's insert fails, the local `(counts, userReaction)`
pair is restored exactly to its pre-toggle snapshot; the switch path's
intermediate delete failure is ignored, and the FeedCard implementation
never restores anything. -/
theorem card_stack_toggle_rollback (counts : Counts) (userReaction : Option String)
    (emoji : String) (remote : RemoteOutcome) :
    (userReaction = some emoji → remote.clearDeleteOk = false →
      cardStackToggle counts userReaction emoji remote = (counts, userReaction)) ∧
    (userReaction ≠ some emoji → remote.insertOk = false →
      cardStackToggle counts userReaction emoji remote = (counts, userReaction)) := by
  constructor
  · intro h hr
    simp [cardStackToggle, h, hr]
  · intro h hr
    simp [cardStackToggle, h, hr]

/-- Claim C3 (witness): the clear-path rollback at a concrete failing
delete. -/
theorem card_stack_toggle_rollback_witness :
    cardStackToggle [("🔥", 2)] (some "🔥") "🔥" ⟨false, true, true⟩ =
      ([("🔥", 2)], some "🔥") :=
  (card_stack_toggle_rollback [("🔥", 2)] (some "🔥") "🔥" ⟨false, true, true⟩).1 rfl rfl

/-- Claim C7 (counterexample): toggling the same emoji twice does NOT
return to the original state when the user's current reaction is a
different emoji: starting from counts `{🔥: 1}` with reaction 🔥,
toggling ❤️ twice ends at counts `{🔥: 0, ❤️: 0}` with no reaction. -/
theorem double_toggle_not_identity :
    (let s := cardStackToggle [("🔥", 1)] (some "🔥") "❤️" ⟨true, true, true⟩
     cardStackToggle s.1 s.2 "❤️" ⟨true, true, true⟩) ≠ ([("🔥", 1)], some "🔥") := by
  decide

/-- Claim C7 (amended): toggling the same emoji twice in a row returns
the local state to the original `(counts, userReaction)` pair provided
the remote calls succeed, the current reaction is `null` or already
that emoji, the counts record has an entry for that emoji, and — when
the current reaction is that emoji — the entry is at least 1.  (With a
different current reaction the second toggle clears instead, see the
counterexample.) -/
theorem double_toggle_identity (counts : Counts) (userReaction : Option String)
    (emoji : String) (n : Nat) (r₁ r₂ : RemoteOutcome)
    (h₁ : r₁.clearDeleteOk = true) (h₂ : r₁.insertOk = true)
    (h₃ : r₂.clearDeleteOk = true) (h₄ : r₂.insertOk = true)
    (hur : userReaction = none ∨ userReaction = some emoji)
    (hn : lookupKey counts emoji = some n)
    (hpos : userReaction = some emoji → 1 ≤ n) :
    cardStackToggle (cardStackToggle counts userReaction emoji r₁).1
      (cardStackToggle counts userReaction emoji r₁).2 emoji r₂ =
      (counts, userReaction) := by
  rcases hur with hur | hur
  · subst hur
    have hs1 : cardStackToggle counts none emoji r₁ =
        (setKey counts emoji (n + 1), some emoji) := by
      simp [cardStackToggle, h₂, toggleLocal, hn]
    rw [hs1]
    have hl1 : lookupKey (setKey counts emoji (n + 1)) emoji = some (n + 1) :=
      lookupKey_setKey counts emoji (n + 1)
    simp [cardStackToggle, h₃, toggleLocal, hl1, Nat.add_sub_cancel, setKey_setKey,
      setKey_self counts emoji n hn]
  · subst hur
    have hpos' := hpos rfl
    have hs1 : cardStackToggle counts (some emoji) emoji r₁ =
        (setKey counts emoji (n - 1), none) := by
      simp [cardStackToggle, h₁, toggleLocal, hn]
    rw [hs1]
    have hl1 : lookupKey (setKey counts emoji (n - 1)) emoji = some (n - 1) :=
      lookupKey_setKey counts emoji (n - 1)
    simp [cardStackToggle, h₄, toggleLocal, hl1, setKey_setKey,
      Nat.sub_add_cancel hpos', setKey_self counts emoji n hn]

/-- Claim C7 (witness): the double toggle at concrete counts
`{😂: 3}` with no current reaction. -/
theorem double_toggle_identity_witness :
    cardStackToggle (cardStackToggle [("😂", 3)] none "😂" ⟨true, true, true⟩).1
      (cardStackToggle [("😂", 3)] none "😂" ⟨true, true, true⟩).2 "😂"
      ⟨true, true, true⟩ = ([("😂", 3)], none) :=
  double_toggle_identity [("😂", 3)] none "😂" 3 ⟨true, true, true⟩ ⟨true, true, true⟩
    rfl rfl rfl rfl (Or.inl rfl) rfl (by intro h; cases h)

/-! ## Feed pagination (src/screens/FeedScreen.tsx, `fetchPage`) -/

/-- A `posts` row as consumed by `fetchPage` (src/types/index.ts
`Post`); `created_at` is its numeric timestamp.  The coordinate and
caption columns are never consulted by the pagination logic and are
omitted from the embedding. -/
structure Post where
  id : String
  user_id : String
  image_url : String
  venue_name : Option String
  created_at : Nat
deriving DecidableEq, Repr

/-- Descending `created_at`: the `.order('created_at', { ascending:
false })` comparator of the posts query. -/
def timeGe (a b : Post) : Prop := b.created_at ≤ a.created_at

instance : DecidableRel timeGe := fun a b => Nat.decLe b.created_at a.created_at

instance : IsTotal Post timeGe := ⟨fun a b => (Nat.le_total b.created_at a.created_at)⟩

instance : IsTrans Post timeGe := ⟨fun _ _ _ hab hbc => Nat.le_trans hbc hab⟩

/-- `PAGE_SIZE = 20` (FeedScreen.tsx). -/
def PAGE_SIZE : Nat := 20

/-- The page fetch of `fetchPage` (FeedScreen.tsx lines 46-164) against
a remote `posts` table: keep posts authored by `{viewer} ∪ friends`
(`.in('user_id', allowedIds)` with `allowedIds = [userId, ...friendIds]`),
order newest first, and slice `.range(offset, offset + PAGE_SIZE - 1)`;
`hasMore` is `postsList.length === PAGE_SIZE`. -/
def fetchPage (posts : List Post) (viewerId : String) (friendIds : List String)
    (offset : Nat) : List Post × Bool :=
  let allowedIds := viewerId :: friendIds
  let rows := List.insertionSort timeGe (posts.filter (fun p => allowedIds.contains p.user_id))
  let page := (rows.drop offset).take PAGE_SIZE
  (page, decide (page.length = PAGE_SIZE))

/-- Claim C8: `hasMore` is reported true exactly when the returned page
is full (its length equals `PAGE_SIZE = 20`), and with exactly 25
available posts the first page returns 20 rows with `hasMore = true`
while the page at offset 20 returns the remaining 5 rows with
`hasMore = false` (together the two pages are the whole ordered post
list). -/
theorem feed_pagination (posts : List Post) (viewerId : String) (friendIds : List String) :
    (∀ offset, (fetchPage posts viewerId friendIds offset).2 = true ↔
      (fetchPage posts viewerId friendIds offset).1.length = PAGE_SIZE) ∧
    ((posts.filter (fun p => (viewerId :: friendIds).contains p.user_id)).length = 25 →
      (fetchPage posts viewerId friendIds 0).1.length = 20 ∧
      (fetchPage posts viewerId friendIds 0).2 = true ∧
      (fetchPage posts viewerId friendIds 20).1.length = 5 ∧
      (fetchPage posts viewerId friendIds 20).2 = false ∧
      (fetchPage posts viewerId friendIds 0).1 ++ (fetchPage posts viewerId friendIds 20).1 =
        List.insertionSort timeGe
          (posts.filter (fun p => (viewerId :: friendIds).contains p.user_id))) := by
  constructor
  · intro offset
    simp [fetchPage]
  · intro h25
    have hlen : (List.insertionSort timeGe
        (posts.filter (fun p => (viewerId :: friendIds).contains p.user_id))).length = 25 := by
      rw [(List.perm_insertionSort timeGe _).length_eq]
      exact h25
    set rows := List.insertionSort timeGe
      (posts.filter (fun p => (viewerId :: friendIds).contains p.user_id)) with hrows
    have hp0 : (fetchPage posts viewerId friendIds 0).1 = (rows.drop 0).take PAGE_SIZE := rfl
    have hp20raw : (fetchPage posts viewerId friendIds 20).1 =
        (rows.drop 20).take PAGE_SIZE := rfl
    have hd : (rows.drop 20).length = 5 := by rw [List.length_drop, hlen]
    have hp20 : (fetchPage posts viewerId friendIds 20).1 = rows.drop 20 := by
      rw [hp20raw]
      exact List.take_of_length_le (by rw [hd]; decide)
    have hl0 : (fetchPage posts viewerId friendIds 0).1.length = 20 := by
      rw [hp0, List.drop_zero, List.length_take, hlen]
      decide
    have hl20 : (fetchPage posts viewerId friendIds 20).1.length = 5 := by
      rw [hp20, hd]
    have hm0 : (fetchPage posts viewerId friendIds 0).2 =
        decide ((fetchPage posts viewerId friendIds 0).1.length = PAGE_SIZE) := rfl
    have hm20 : (fetchPage posts viewerId friendIds 20).2 =
        decide ((fetchPage posts viewerId friendIds 20).1.length = PAGE_SIZE) := rfl
    refine ⟨hl0, ?_, hl20, ?_, ?_⟩
    · rw [hm0, decide_eq_true_iff, hl0]
      rfl
    · rw [hm20, decide_eq_false_iff_not, hl20]
      decide
    · rw [hp0, List.drop_zero, hp20]
      exact List.take_append_drop PAGE_SIZE rows

/-- Claim C8 (witness): the 25-post scenario at a concrete table of 25
posts all authored by the viewer. -/
theorem feed_pagination_witness :
    (((List.range 25).map (fun i => Post.mk "p" "viewer" "img" none i)).filter
        (fun p => ("viewer" :: ([] : List String)).contains p.user_id)).length = 25 ∧
    (fetchPage ((List.range 25).map (fun i => Post.mk "p" "viewer" "img" none i))
      "viewer" [] 0).1.length = 20 ∧
    (fetchPage ((List.range 25).map (fun i => Post.mk "p" "viewer" "img" none i))
      "viewer" [] 20).2 = false :=
  ⟨by decide,
   ((feed_pagination _ "viewer" []).2 (by decide)).1,
   ((feed_pagination _ "viewer" []).2 (by decide)).2.2.2.1⟩

/-! ## Card stack index arithmetic (CardStack component) -/

/-- `SWIPE_THRESHOLD = 120`: the release distance beyond which a drag
advances the stack. -/
def SWIPE_THRESHOLD : Nat := 120

/-- `safeInitial` (CardStack lines 117-120):
`Math.min(Math.max(0, initialIndex ?? 0), Math.max(0, posts.length - 1))`,
with JS number arithmetic on a possibly negative caller-supplied index
modelled over `Int`. -/
def safeInitial (initialIndex : Option Int) (len : Nat) : Int :=
  min (max 0 (initialIndex.getD 0)) (max 0 ((len : Int) - 1))

/-- The index transition of `onPanResponderRelease` (CardStack lines
313-325): a release beyond the threshold moves to the previous index
(drag right, `dx > 0`) or the next index (drag left), wrapping first
⇄ last; a release within the threshold, or on an empty list, keeps the
current index. -/
def releaseNextIndex (dx : Int) (currentIndex len : Nat) : Nat :=
  if SWIPE_THRESHOLD < dx.natAbs then
    if len = 0 then currentIndex
    else if 0 < dx then (if currentIndex = 0 then len - 1 else currentIndex - 1)
    else (if currentIndex = len - 1 then 0 else currentIndex + 1)
  else currentIndex

/-- `getWrappedIndex` (CardStack line 372):
`((currentIndex + offset) % len + len) % len` where `%` is the JS
remainder (sign of the dividend), i.e. `Int.tmod`. -/
def getWrappedIndex (currentIndex len : Nat) (offset : Int) : Int :=
  (((currentIndex : Int) + offset).tmod (len : Int) + (len : Int)).tmod (len : Int)

/-- The deletion effect (CardStack lines 223-230): an empty list closes
the stack (`none`), otherwise the index clamps to
`Math.min(prev, posts.length - 1)`. -/
def deletionClamp (prevIndex len : Nat) : Option Nat :=
  if len = 0 then none else some (min prevIndex (len - 1))

/-- The JS remainder is bounded below by `-n` for a positive modulus. -/
theorem tmod_ge_neg (a : Int) (n : Nat) (hn : 0 < n) : -(n : Int) ≤ a.tmod n := by
  cases a with
  | ofNat m =>
    have h0 : (0 : Int) ≤ Int.ofNat m := Int.ofNat_nonneg m
    have := Int.tmod_nonneg (n : Int) h0
    omega
  | negSucc m =>
    have heq : Int.tmod (Int.negSucc m) ((n : Nat) : Int) = -((m.succ % n : Nat) : Int) := rfl
    have hlt : m.succ % n < n := Nat.mod_lt _ hn
    rw [heq]
    omega

theorem getWrappedIndex_bounds (currentIndex len : Nat) (offset : Int) (hl : 0 < len) :
    0 ≤ getWrappedIndex currentIndex len offset ∧
      getWrappedIndex currentIndex len offset < len := by
  unfold getWrappedIndex
  have h1 : -((len : Nat) : Int) ≤ ((currentIndex : Int) + offset).tmod len :=
    tmod_ge_neg _ len hl
  have h2 : (0 : Int) ≤ ((currentIndex : Int) + offset).tmod len + len := by omega
  rw [Int.tmod_eq_emod h2 (by omega)]
  exact ⟨Int.emod_nonneg _ (by omega), Int.emod_lt_of_pos _ (by omega)⟩

theorem releaseNextIndex_forward (dx : Int) (hdx : dx < -120) (len : Nat) (hl : 0 < len)
    (i : Nat) (hi : i < len) : releaseNextIndex dx i len = (i + 1) % len := by
  have habs : SWIPE_THRESHOLD < dx.natAbs := by
    unfold SWIPE_THRESHOLD
    omega
  have hpos : ¬ 0 < dx := by omega
  unfold releaseNextIndex
  rw [if_pos habs, if_neg (Nat.pos_iff_ne_zero.1 hl), if_neg hpos]
  by_cases h : i = len - 1
  · rw [if_pos h, h, Nat.sub_add_cancel hl, Nat.mod_self]
  · rw [if_neg h, Nat.mod_eq_of_lt (by omega)]

theorem releaseNextIndex_forward_iterate (dx : Int) (hdx : dx < -120) (len : Nat)
    (hl : 0 < len) : ∀ (k i : Nat), i < len →
      Nat.iterate (fun j => releaseNextIndex dx j len) k i = (i + k) % len := by
  intro k
  induction k with
  | zero =>
    intro i hi
    simp [Nat.mod_eq_of_lt hi]
  | succ k ih =>
    intro i hi
    rw [Function.iterate_succ_apply]
    have hstep : releaseNextIndex dx i len = (i + 1) % len :=
      releaseNextIndex_forward dx hdx len hl i hi
    simp only [hstep]
    rw [ih _ (Nat.mod_lt _ hl), Nat.mod_add_mod]
    have harith : i + 1 + k = i + (k + 1) := by omega
    rw [harith]

/-- Claim C9: on a list of length `N ≥ 2`, releasing a
beyond-threshold forward swipe (drag left, `dx < -120`) `N` times in a
row returns the card stack to its starting index, and a
beyond-threshold backward swipe (drag right, `dx > 120`) from index 0
lands on index `N − 1`. -/
theorem card_stack_wraparound (len startIdx : Nat) (dxf dxb : Int)
    (hlen : 2 ≤ len) (hstart : startIdx < len) (hf : dxf < -120) (hb : 120 < dxb) :
    Nat.iterate (fun j => releaseNextIndex dxf j len) len startIdx = startIdx ∧
    releaseNextIndex dxb 0 len = len - 1 := by
  constructor
  · rw [releaseNextIndex_forward_iterate dxf hf len (by omega) len startIdx hstart,
      Nat.add_mod_right, Nat.mod_eq_of_lt hstart]
  · have habs : SWIPE_THRESHOLD < dxb.natAbs := by
      unfold SWIPE_THRESHOLD
      omega
    unfold releaseNextIndex
    rw [if_pos habs, if_neg (by omega : ¬ len = 0),
      if_pos (show (0 : Int) < dxb by omega), if_pos rfl]

/-- Claim C9 (witness): two forward swipes on a two-post stack return
to index 0, and a backward swipe from 0 lands on index 1. -/
theorem card_stack_wraparound_witness :
    Nat.iterate (fun j => releaseNextIndex (-121) j 2) 2 0 = 0 ∧
    releaseNextIndex 121 0 2 = 1 :=
  card_stack_wraparound 2 0 (-121) 121 (by decide) (by decide) (by decide) (by decide)

/-- Claim C10: whenever the list is non-empty every index operation of
the card stack stays in `[0, length − 1]`: the caller-supplied initial
index is clamped into range, a swipe release maps an in-range index to
an in-range index, the wrapped-index helper is in range for every
offset, and the post-deletion clamp yields an in-range index — while a
deletion that empties the list closes the stack instead of producing an
index. -/
theorem card_stack_index_in_range (len : Nat) :
    (0 < len → ∀ initialIndex : Option Int,
      0 ≤ safeInitial initialIndex len ∧ safeInitial initialIndex len < len) ∧
    (0 < len → ∀ (dx : Int) (idx : Nat), idx < len → releaseNextIndex dx idx len < len) ∧
    (0 < len → ∀ (idx : Nat) (offset : Int),
      0 ≤ getWrappedIndex idx len offset ∧ getWrappedIndex idx len offset < len) ∧
    (0 < len → ∀ prevIndex : Nat,
      ∃ i, deletionClamp prevIndex len = some i ∧ i < len) ∧
    (∀ prevIndex : Nat, deletionClamp prevIndex 0 = none) := by
  refine ⟨?_, ?_, ?_, ?_, ?_⟩
  · intro hl initialIndex
    unfold safeInitial
    constructor
    · exact le_min (le_max_left 0 _) (le_max_left 0 _)
    · have hmax : max (0 : Int) ((len : Int) - 1) = (len : Int) - 1 :=
        max_eq_right (by omega)
      calc min (max 0 ((initialIndex.getD 0 : Int))) (max 0 ((len : Int) - 1)) ≤
            max 0 ((len : Int) - 1) := min_le_right _ _
        _ < len := by rw [hmax]; omega
  · intro hl dx idx hidx
    unfold releaseNextIndex
    repeat' split
    all_goals omega
  · intro hl idx offset
    exact getWrappedIndex_bounds idx len offset hl
  · intro hl prevIndex
    refine ⟨min prevIndex (len - 1), ?_, ?_⟩
    · unfold deletionClamp
      rw [if_neg (by omega : ¬ len = 0)]
    · omega
  · intro prevIndex
    rfl

/-- Claim C10 (witness): the invariant instantiated at concrete
lengths, indices and offsets, including a negative wrapped offset and
the deletion clamp on a shrunken and on an emptied list. -/
theorem card_stack_index_in_range_witness :
    (0 ≤ safeInitial (some 5) 3 ∧ safeInitial (some 5) 3 < 3) ∧
    releaseNextIndex (-200) 2 3 < 3 ∧
    (0 ≤ getWrappedIndex 2 3 (-7) ∧ getWrappedIndex 2 3 (-7) < 3) ∧
    (∃ i, deletionClamp 2 1 = some i ∧ i < 1) ∧
    deletionClamp 2 0 = none :=
  ⟨(card_stack_index_in_range 3).1 (by decide) (some 5),
   (card_stack_index_in_range 3).2.1 (by decide) (-200) 2 (by decide),
   (card_stack_index_in_range 3).2.2.1 (by decide) 2 (-7),
   (card_stack_index_in_range 1).2.2.2.1 (by decide) 2,
   (card_stack_index_in_range 0).2.2.2.2 2⟩
